import Mathlib

/-!
Shallow embedding of `src/alarm_clock.py` (class `AlarmClock`): the trigger
data model, time-string validation and formatting, the snooze (deferral)
computation, the alarm-response decision protocol, the main monitor scan,
and the store operations (add / toggle / delete).  Python strings are
modelled as Lean `String` (a structure over `List Char`); character-level
parsing is performed on the underlying `List Char`.  Wall-clock instants
carry hour, minute and second fields, matching the granularity the source
actually reads from `datetime.datetime.now()`.
-/

namespace AlarmClock

/-- Python `str.split(sep)` for a single-character separator: splits at every
occurrence of the separator and keeps empty segments, so `""` gives `[""]`
and `"a:b:"` gives `["a","b",""]`. -/
def pySplit (sep : Char) : List Char → List (List Char)
  | [] => [[]]
  | c :: cs =>
      if c = sep then [] :: pySplit sep cs
      else
        match pySplit sep cs with
        | [] => [[c]]
        | g :: gs => (c :: g) :: gs

/-- ASCII whitespace recognised by Python's `str.strip()` and by `int(...)`
(the Unicode space characters Python additionally strips do not occur in
any input considered here). -/
def isPyWS (c : Char) : Bool :=
  c = ' ' || c = '\t' || c = '\n' || c = '\x0d' || c = '\x0b' || c = '\x0c'

/-- Python `str.strip()`: remove leading and trailing whitespace. -/
def pyStrip (l : List Char) : List Char :=
  ((l.dropWhile isPyWS).reverse.dropWhile isPyWS).reverse

/-- Digit-run grammar of a Python decimal integer literal body: one or more
digits, with single underscores allowed between digits (`int("1_2") = 12`,
while `"_1"`, `"1_"` and `"1__2"` are rejected). -/
def digitsUnd : List Char → Bool
  | [] => false
  | [c] => c.isDigit
  | c :: d :: rest =>
      if d = '_' then c.isDigit && digitsUnd rest
      else c.isDigit && digitsUnd (d :: rest)

/-- Decimal value of a digit run, ignoring grouping underscores. -/
def pyDigitsVal (l : List Char) : Nat :=
  l.foldl (fun acc c => if c = '_' then acc else acc * 10 + (c.toNat - 48)) 0

/-- Python `int(s)` for a decimal string: optional surrounding whitespace,
optional single `+`/`-` sign, then an underscore-grouped digit run; `none`
models the `ValueError` raised on any other shape. -/
def pyIntParse (l : List Char) : Option Int :=
  match pyStrip l with
  | [] => none
  | c :: rest =>
      if c = '+' then
        if digitsUnd rest then some (Int.ofNat (pyDigitsVal rest)) else none
      else if c = '-' then
        if digitsUnd rest then some (-(Int.ofNat (pyDigitsVal rest))) else none
      else
        if digitsUnd (c :: rest) then some (Int.ofNat (pyDigitsVal (c :: rest))) else none

/-- Embeds `AlarmClock.validate_time_format` (src/alarm_clock.py:55-73):
split on `':'`, require exactly two segments, convert both with `int`, and
check `0 <= hours <= 23 and 0 <= minutes <= 59`; a `ValueError` from the
conversion yields `False`. -/
def validate_time_format (time_str : String) : Bool :=
  match pySplit ':' time_str.data with
  | [hs, ms] =>
      match pyIntParse hs, pyIntParse ms with
      | some hours, some minutes =>
          decide (0 ≤ hours ∧ hours ≤ 23) && decide (0 ≤ minutes ∧ minutes ≤ 59)
      | _, _ => false
  | _ => false

/-- Spec-side shape predicate for C7, following the claim's words: exactly
two colon-separated segments, each nonempty and consisting of digits only,
hours in [0,23] and minutes in [0,59]. -/
def numericHM (s : String) : Bool :=
  match pySplit ':' s.data with
  | [hs, ms] =>
      !hs.isEmpty && !ms.isEmpty && hs.all Char.isDigit && ms.all Char.isDigit &&
        pyDigitsVal hs ≤ 23 && pyDigitsVal ms ≤ 59
  | _ => false

/-- Two-digit zero-padded rendering of a field, as `strftime` produces for
`%H` and `%M`. -/
def fmt2 (n : Nat) : String :=
  if n < 10 then "0" ++ toString n else toString n

/-- Embeds `strftime("%H:%M")` applied to a time with the given hour and
minute fields (seconds are simply not rendered). -/
def strftimeHM (h m : Nat) : String :=
  fmt2 h ++ ":" ++ fmt2 m

/-- A 1-2 digit numeric field as `strptime`'s `%H`/`%M` directives read it. -/
def parse2 (l : List Char) : Option Nat :=
  match l with
  | [c] => if c.isDigit then some (c.toNat - 48) else none
  | [c1, c2] =>
      if c1.isDigit && c2.isDigit then some ((c1.toNat - 48) * 10 + (c2.toNat - 48))
      else none
  | _ => none

/-- Embeds `datetime.datetime.strptime(s, "%H:%M").time()` restricted to the
hour/minute fields: two 1-2 digit segments around a single `':'`, hour at
most 23 and minute at most 59; `none` models the `ValueError` on any other
input. -/
def strptimeHM (s : String) : Option (Nat × Nat) :=
  match pySplit ':' s.data with
  | [hs, ms] =>
      match parse2 hs, parse2 ms with
      | some h, some m => if h ≤ 23 && m ≤ 59 then some (h, m) else none
      | _, _ => none
  | _ => none

/-- A wall-clock instant as the source reads it from
`datetime.datetime.now()`: time-of-day fields only (the date part never
survives `strftime("%H:%M")`). -/
structure Instant where
  hour : Nat
  minute : Nat
  second : Nat
deriving Repr, DecidableEq

/-- Embeds the alarm dictionary built in `set_alarm`
(src/alarm_clock.py:100-108): keys `time`, `tone`, `snooze_duration`,
`label`, `enabled`, `snoozed`, `snooze_count`. -/
structure Alarm where
  time : String
  tone : String
  snooze_duration : Nat
  label : String
  enabled : Bool
  snoozed : Bool
  snooze_count : Nat
deriving Repr, DecidableEq

/-- Hour and minute rendered by
`(now + timedelta(minutes=m)).strftime("%H:%M")` in `snooze_alarm`
(src/alarm_clock.py:345-347): full-resolution datetime addition followed by
truncation to hour/minute (the date overflow disappears, hence mod one day
in seconds). -/
def snoozeFireHM (now : Instant) (minutes : Nat) : Nat × Nat :=
  let t := (now.hour * 3600 + now.minute * 60 + now.second + minutes * 60) % 86400
  (t / 3600, t % 3600 / 60)

/-- Embeds `AlarmClock.snooze_alarm` (src/alarm_clock.py:330-357): mutate the
firing alarm in place (`snoozed = True`, `snooze_count += 1`), then build the
detached snooze copy with the recomputed time string and the
`" (Snooze n)"`-suffixed label.  Returns (mutated original, spawned copy);
the copy is handed to an independent `monitor_snooze_alarm` watch task. -/
def snooze_alarm (alarm : Alarm) (now : Instant) : Alarm × Alarm :=
  let alarm := { alarm with snoozed := true, snooze_count := alarm.snooze_count + 1 }
  let hm := snoozeFireHM now alarm.snooze_duration
  let copy := { alarm with
    time := strftimeHM hm.1 hm.2,
    label := alarm.label ++ " (Snooze " ++ toString alarm.snooze_count ++ ")" }
  (alarm, copy)

/-- One user interaction with the decision prompt in
`handle_alarm_response`: either a text line from `input()` or a
`KeyboardInterrupt` raised at the prompt. -/
inductive UserInput where
  | line (s : List Char)
  | interrupt
deriving Repr, DecidableEq

/-- How a firing episode resolved: dismissed, snoozed (carrying the spawned
snooze copy), or ended by a keyboard interrupt. -/
inductive Outcome where
  | dismissed
  | snoozed (watch : Alarm)
  | interrupted
deriving Repr, DecidableEq

/-- Python `str.lower()` on the characters of a response. -/
def lowerCh (l : List Char) : List Char :=
  l.map Char.toLower

/-- Embeds the response loop of `AlarmClock.handle_alarm_response`
(src/alarm_clock.py:295-328), consuming prompt inputs until the episode
resolves.  Dismiss (`"1"`/`"dismiss"`) resets `snoozed` and `snooze_count`
and clears `active_alarm`; snooze (`"2"`, empty line, `"snooze"`) runs
`snooze_alarm` (which also clears `active_alarm`); `KeyboardInterrupt`
only clears `active_alarm`; any other line re-prompts.  Returns
(alarm after the episode, outcome, `active_alarm` after, unconsumed
inputs); `none` models an episode that never resolves because the input
stream carries no further response. -/
def handle_alarm_response (alarm : Alarm) (now : Instant) :
    List UserInput → Option (Alarm × Outcome × Option Alarm × List UserInput)
  | [] => none
  | UserInput.interrupt :: rest => some (alarm, Outcome.interrupted, none, rest)
  | UserInput.line raw :: rest =>
      let response := pyStrip raw
      if response = ['1'] ∨ lowerCh response = "dismiss".data then
        some ({ alarm with snoozed := false, snooze_count := 0 }, Outcome.dismissed, none, rest)
      else if response = ['2'] ∨ response = [] ∨ lowerCh response = "snooze".data then
        let p := snooze_alarm alarm now
        some (p.1, Outcome.snoozed p.2, none, rest)
      else
        handle_alarm_response alarm now rest

/-- Result of one pass of the `alarm_monitor` scan loop body: the store
after the pass, the `active_alarm` slot, the unconsumed prompt inputs, the
store indices that entered a firing episode during the pass (in the order
they fired), and the snooze copies spawned for watch tasks. -/
structure ScanResult where
  alarms : List Alarm
  active : Option Alarm
  inputs : List UserInput
  fired : List Nat
  watches : List Alarm
deriving Repr, DecidableEq

/-- Embeds one iteration of the `while` body of `AlarmClock.alarm_monitor`
(src/alarm_clock.py:386-404): walk the store in order; skip an alarm when
`not alarm['enabled'] or alarm['snoozed']`; otherwise parse its time with
`strptime("%H:%M")` and, when hour and minute match the current wall clock
and `active_alarm` is empty, play the alarm (pure console/audio output,
not modelled) and run `handle_alarm_response`, whose in-place mutation of
the alarm is visible in the store.  `none` models a crash of the monitor
thread (unparsable stored time) or an episode blocked forever awaiting
input. -/
def alarm_monitor_pass (now : Instant) :
    List Alarm → Option Alarm → List UserInput → Option ScanResult
  | [], act, ins => some { alarms := [], active := act, inputs := ins, fired := [], watches := [] }
  | a :: rest, act, ins =>
      if !a.enabled || a.snoozed then
        (alarm_monitor_pass now rest act ins).map fun r =>
          { r with alarms := a :: r.alarms, fired := r.fired.map (· + 1) }
      else
        match strptimeHM a.time with
        | none => none
        | some hm =>
            if now.hour = hm.1 ∧ now.minute = hm.2 ∧ act = none then
              match handle_alarm_response a now ins with
              | none => none
              | some (a2, outcome, act2, ins2) =>
                  let ws := match outcome with
                    | Outcome.snoozed w => [w]
                    | _ => []
                  (alarm_monitor_pass now rest act2 ins2).map fun r =>
                    { r with alarms := a2 :: r.alarms, fired := 0 :: r.fired.map (· + 1),
                             watches := ws ++ r.watches }
            else
              (alarm_monitor_pass now rest act ins).map fun r =>
                { r with alarms := a :: r.alarms, fired := r.fired.map (· + 1) }

/-- Embeds the store append of `AlarmClock.set_alarm`
(src/alarm_clock.py:100-110) after the interactive prompts have produced a
validated time, a tone path, a snooze duration and a stripped label: a new
alarm with `enabled = True`, `snoozed = False`, `snooze_count = 0` is
appended, with the label defaulted when empty. -/
def set_alarm (alarms : List Alarm) (time tone : String) (snooze_duration : Nat)
    (label : String) : List Alarm :=
  alarms ++ [{ time := time, tone := tone, snooze_duration := snooze_duration,
               label := if label = "" then "Alarm at " ++ time else label,
               enabled := true, snoozed := false, snooze_count := 0 }]

/-- In-place flip of the `enabled` flag at a store position. -/
def toggleAt : List Alarm → Nat → List Alarm
  | [], _ => []
  | a :: rest, 0 => { a with enabled := !a.enabled } :: rest
  | a :: rest, n + 1 => a :: toggleAt rest n

/-- Embeds `AlarmClock.toggle_alarm` (src/alarm_clock.py:246-257) after the
prompt: `alarm_num` is the user's number minus one; if
`0 <= alarm_num < len(self.alarms)` the alarm's `enabled` flag is flipped
in place, otherwise the invalid-number error path is taken. -/
def toggle_alarm (alarms : List Alarm) (alarm_num : Int) : Except String (List Alarm) :=
  if 0 ≤ alarm_num ∧ alarm_num < alarms.length then
    Except.ok (toggleAt alarms alarm_num.toNat)
  else
    Except.error "Invalid alarm number."

/-- Python `list.pop(n)`: the removed element and the remaining list. -/
def popAt : List Alarm → Nat → Option (Alarm × List Alarm)
  | [], _ => none
  | a :: rest, 0 => some (a, rest)
  | a :: rest, n + 1 => (popAt rest n).map fun p => (p.1, a :: p.2)

/-- Embeds `AlarmClock.delete_alarm` (src/alarm_clock.py:259-269) after the
prompt: bounds check, then `self.alarms.pop(alarm_num)`. -/
def delete_alarm (alarms : List Alarm) (alarm_num : Int) :
    Except String (Alarm × List Alarm) :=
  if 0 ≤ alarm_num ∧ alarm_num < alarms.length then
    match popAt alarms alarm_num.toNat with
    | some p => Except.ok p
    | none => Except.error "Invalid alarm number."
  else
    Except.error "Invalid alarm number."

/-- Embeds the per-alarm rendering of `AlarmClock.view_alarms`
(src/alarm_clock.py:212-220): a read-only summary line; the store is not
touched. -/
def view_alarm_entry (i : Nat) (a : Alarm) : String :=
  toString (i + 1) ++ ". " ++ a.label ++ " Time: " ++ a.time ++ " | Status: " ++
    (if a.enabled then "ENABLED" else "DISABLED") ++
    (if a.snoozed then " (Snoozed " ++ toString a.snooze_count ++ "x)" else "")

/-- Embeds `AlarmClock.view_alarms` as the list of rendered entries. -/
def view_alarms (alarms : List Alarm) : List String :=
  (List.range alarms.length).zipWith view_alarm_entry alarms

/-- Embeds `AlarmClock.play_alarm` (src/alarm_clock.py:271-293): console
output and (external) sound playback only; the alarm record is read, never
written. -/
def play_alarm (a : Alarm) : List String :=
  ["ALARM RINGING: " ++ a.label, "Time: " ++ a.time]

/-- Concrete fixture: a fresh enabled alarm at 10:00 with a 5-minute snooze
duration, as `set_alarm` would create it. -/
def wakeAlarm : Alarm :=
  { time := "10:00", tone := "alarm_tones/beep.wav", snooze_duration := 5,
    label := "Wake", enabled := true, snoozed := false, snooze_count := 0 }

/-- Concrete fixture: an alarm mid-snooze-cycle with three deferrals. -/
def count3Alarm : Alarm :=
  { wakeAlarm with snoozed := true, snooze_count := 3 }

/-- Concrete fixture: an enabled, non-snoozed alarm due at 09:00. -/
def dueA : Alarm :=
  { wakeAlarm with time := "09:00", label := "A" }

/-- Concrete fixture: a second enabled, non-snoozed alarm due at 09:00. -/
def dueB : Alarm :=
  { wakeAlarm with time := "09:00", label := "B" }

/-- Concrete fixture: a disabled alarm due at 09:00. -/
def dueDisabled : Alarm :=
  { wakeAlarm with time := "09:00", label := "D", enabled := false }

/-- Concrete fixture: a snoozed alarm due at 09:00. -/
def dueSnoozed : Alarm :=
  { wakeAlarm with time := "09:00", label := "S", snoozed := true, snooze_count := 1 }

/-- The minute-of-day reading of an instant plus a deferral, wrapped at one
day: the hour/minute arithmetic the spec attributes to `computeDeferral`. -/
def deferMinuteOfDay (now : Instant) (minutes : Nat) : Nat :=
  (now.hour * 60 + now.minute + minutes) % 1440

/-- Invariant of one `alarm_monitor` scan pass over a store: the store
keeps its length; the indices that fired are strictly increasing (store
order, episodes strictly serialized); every index that fired named an
enabled, non-snoozed alarm whose stored time matched the wall clock; every
index that did not fire is unchanged in the store; and when the firing
slot was occupied on entry, nothing fired and nothing changed. -/
def ScanInv (now : Instant) (alarms : List Alarm) (act : Option Alarm)
    (ins : List UserInput) (r : ScanResult) : Prop :=
  r.alarms.length = alarms.length ∧
  List.Chain' (· < ·) r.fired ∧
  (∀ i ∈ r.fired, ∃ a, alarms[i]? = some a ∧ a.enabled = true ∧ a.snoozed = false ∧
      strptimeHM a.time = some (now.hour, now.minute)) ∧
  (∀ i : Nat, i ∉ r.fired → r.alarms[i]? = alarms[i]?) ∧
  (∀ x, act = some x → r.fired = [] ∧ r.alarms = alarms ∧ r.active = some x ∧ r.inputs = ins)

/-- When the seconds field is in range, the datetime addition inside
`snooze_alarm` lands on the minute-of-day `deferMinuteOfDay` computes:
seconds never carry into the rendered minute, so the result is `now`
plus the snooze duration truncated to minute resolution. -/
theorem snoozeFireHM_eq (now : Instant) (minutes : Nat) (hs : now.second < 60) :
    snoozeFireHM now minutes =
      (deferMinuteOfDay now minutes / 60, deferMinuteOfDay now minutes % 60) := by
  unfold snoozeFireHM deferMinuteOfDay
  have h1 : (now.hour * 3600 + now.minute * 60 + now.second + minutes * 60) % 86400 / 3600 =
      (now.hour * 60 + now.minute + minutes) % 1440 / 60 := by omega
  have h2 : (now.hour * 3600 + now.minute * 60 + now.second + minutes * 60) % 86400 % 3600 / 60 =
      (now.hour * 60 + now.minute + minutes) % 1440 % 60 := by omega
  simp only [h1, h2]

/-- C1: for every trigger and wall-clock instant (with an in-range seconds
field), `snooze_alarm`'s spawned trigger has fire time `now` plus the
trigger's defer duration truncated to minute resolution (seconds dropped),
defer count one more than the trigger's, and label equal to the trigger's
label followed by `" (Snooze <deferCount+1>)"`; being a pure function of
the trigger and the instant, the operation is deterministic. -/
theorem snooze_computeDeferral_spec (alarm : Alarm) (now : Instant) (hs : now.second < 60) :
    (snooze_alarm alarm now).2.time =
        strftimeHM (deferMinuteOfDay now alarm.snooze_duration / 60)
                   (deferMinuteOfDay now alarm.snooze_duration % 60)
    ∧ (snooze_alarm alarm now).2.snooze_count = alarm.snooze_count + 1
    ∧ (snooze_alarm alarm now).2.label =
        alarm.label ++ " (Snooze " ++ toString (alarm.snooze_count + 1) ++ ")" := by
  refine ⟨?_, rfl, rfl⟩
  show strftimeHM (snoozeFireHM now alarm.snooze_duration).1
      (snoozeFireHM now alarm.snooze_duration).2 = _
  rw [snoozeFireHM_eq now alarm.snooze_duration hs]

/-- C1 witness: the concrete chain from the spec — snoozing the 10:00 alarm
(defer duration 5, defer count 0) at 10:00 yields fire time 10:05, count 1,
label `"Wake (Snooze 1)"`, and snoozing the result at 10:05 yields 10:10,
count 2, label ending in `"(Snooze 2)"`. -/
theorem snooze_computeDeferral_spec_witness :
    ((snooze_alarm wakeAlarm ⟨10, 0, 0⟩).2.time =
        strftimeHM (deferMinuteOfDay ⟨10, 0, 0⟩ wakeAlarm.snooze_duration / 60)
                   (deferMinuteOfDay ⟨10, 0, 0⟩ wakeAlarm.snooze_duration % 60)
      ∧ (snooze_alarm wakeAlarm ⟨10, 0, 0⟩).2.snooze_count = wakeAlarm.snooze_count + 1
      ∧ (snooze_alarm wakeAlarm ⟨10, 0, 0⟩).2.label =
          wakeAlarm.label ++ " (Snooze " ++ toString (wakeAlarm.snooze_count + 1) ++ ")")
    ∧ (snooze_alarm wakeAlarm ⟨10, 0, 0⟩).2.time = "10:05"
    ∧ (snooze_alarm wakeAlarm ⟨10, 0, 0⟩).2.label = "Wake (Snooze 1)"
    ∧ (snooze_alarm (snooze_alarm wakeAlarm ⟨10, 0, 0⟩).2 ⟨10, 5, 0⟩).2.time = "10:10"
    ∧ (snooze_alarm (snooze_alarm wakeAlarm ⟨10, 0, 0⟩).2 ⟨10, 5, 0⟩).2.snooze_count = 2
    ∧ (snooze_alarm (snooze_alarm wakeAlarm ⟨10, 0, 0⟩).2 ⟨10, 5, 0⟩).2.label =
        "Wake (Snooze 1) (Snooze 2)" :=
  ⟨snooze_computeDeferral_spec wakeAlarm ⟨10, 0, 0⟩ (by decide), by decide⟩

/-- C2 counterexample: the source marks the original `snoozed = True`
*before* taking the copy, so the spawned snooze trigger has
`deferred = true`, not `false` as the claim states — exhibited on the fresh
10:00 alarm (whose own `snoozed` flag was `false`). -/
theorem snooze_copy_not_deferred_counterexample :
    wakeAlarm.snoozed = false ∧
      ¬ (snooze_alarm wakeAlarm ⟨10, 0, 0⟩).2.snoozed = false := by
  decide

/-- C2 amended: the trigger spawned by the deferral operation has
`deferred = true` (it is copied from the original after the original is
marked deferred), its defer count is the original's plus one, and all
fields other than `fireTime`, `label`, `deferCount` and `deferred` —
namely `toneRef`, `deferDuration` and `enabled` — are copied unchanged. -/
theorem snooze_copy_fields (alarm : Alarm) (now : Instant) :
    (snooze_alarm alarm now).2.snoozed = true
    ∧ (snooze_alarm alarm now).2.tone = alarm.tone
    ∧ (snooze_alarm alarm now).2.snooze_duration = alarm.snooze_duration
    ∧ (snooze_alarm alarm now).2.enabled = alarm.enabled
    ∧ (snooze_alarm alarm now).2.snooze_count = alarm.snooze_count + 1 :=
  ⟨rfl, rfl, rfl, rfl, rfl⟩

/-- C4: whenever the decision protocol resolves a firing episode with an
explicit dismiss, the trigger afterwards has defer count 0 and is not
marked deferred (and the firing slot is cleared). -/
theorem dismiss_resets (alarm : Alarm) (now : Instant) (ins : List UserInput)
    (a2 : Alarm) (act2 : Option Alarm) (rest : List UserInput)
    (h : handle_alarm_response alarm now ins = some (a2, Outcome.dismissed, act2, rest)) :
    a2.snooze_count = 0 ∧ a2.snoozed = false ∧ act2 = none := by
  induction ins with
  | nil => exact absurd h (by simp [handle_alarm_response])
  | cons i tl ih =>
      cases i with
      | interrupt => simp [handle_alarm_response] at h
      | line raw =>
          simp only [handle_alarm_response] at h
          split at h
          · simp only [Option.some.injEq, Prod.mk.injEq, true_and] at h
            obtain ⟨h1, h3, -⟩ := h
            subst h1
            subst h3
            exact ⟨rfl, rfl, rfl⟩
          · split at h
            · simp at h
            · exact ih h

/-- C4 witness: dismissing the firing alarm that has been snoozed three
times leaves it with defer count 0 and the deferred flag cleared. -/
theorem dismiss_resets_witness :
    count3Alarm.snooze_count = 3 ∧ count3Alarm.snoozed = true ∧
      (∃ a2 act2 rest,
        handle_alarm_response count3Alarm ⟨10, 0, 0⟩ [UserInput.line ['1']] =
          some (a2, Outcome.dismissed, act2, rest) ∧
        a2.snooze_count = 0 ∧ a2.snoozed = false ∧ act2 = none) := by
  refine ⟨rfl, rfl, ?_⟩
  refine ⟨{ count3Alarm with snoozed := false, snooze_count := 0 }, none, [], by decide, ?_⟩
  exact dismiss_resets count3Alarm ⟨10, 0, 0⟩ [UserInput.line ['1']]
    { count3Alarm with snoozed := false, snooze_count := 0 } none [] (by decide)

/-- C5 counterexample: a keyboard interrupt during the decision protocol for
the thrice-snoozed alarm clears the firing slot, but unlike an explicit
dismiss it leaves defer count 3 and the deferred flag set — so its outcome
is not the same as a dismiss. -/
theorem interrupt_dismiss_counterexample :
    (handle_alarm_response count3Alarm ⟨10, 0, 0⟩ [UserInput.interrupt]).map
        (fun p => (p.1.snooze_count, p.1.snoozed, p.2.2.1)) = some (3, true, none)
    ∧ ¬ (handle_alarm_response count3Alarm ⟨10, 0, 0⟩ [UserInput.interrupt]).map
        (fun p => p.1.snooze_count) = some 0 := by
  decide

/-- C5 amended: an emergency-interrupt signal during the decision protocol
ends the firing episode immediately and without error — the firing slot is
cleared — but the trigger itself is returned unchanged: its deferred flag
and defer count are NOT reset the way an explicit dismiss resets them. -/
theorem interrupt_clears_slot (alarm : Alarm) (now : Instant) (rest : List UserInput) :
    handle_alarm_response alarm now (UserInput.interrupt :: rest) =
      some (alarm, Outcome.interrupted, none, rest) :=
  rfl

/-- C10: the fire time of the trigger spawned by the deferral operation is
the time-of-day of `now` plus the defer duration modulo 24 hours — rendered
from an hour below 24 and a minute below 60 — so a deferral that crosses
midnight wraps to the early hours. -/
theorem snooze_time_wraps (alarm : Alarm) (now : Instant)
    (hs : now.second < 60) :
    ∃ h m : Nat, (snooze_alarm alarm now).2.time = strftimeHM h m
      ∧ h < 24 ∧ m < 60
      ∧ h * 60 + m = (now.hour * 60 + now.minute + alarm.snooze_duration) % 1440 := by
  refine ⟨deferMinuteOfDay now alarm.snooze_duration / 60,
          deferMinuteOfDay now alarm.snooze_duration % 60, ?_, ?_, ?_, ?_⟩
  · show strftimeHM (snoozeFireHM now alarm.snooze_duration).1
        (snoozeFireHM now alarm.snooze_duration).2 = _
    rw [snoozeFireHM_eq now alarm.snooze_duration hs]
  · have : deferMinuteOfDay now alarm.snooze_duration < 1440 := Nat.mod_lt _ (by omega)
    omega
  · omega
  · unfold deferMinuteOfDay
    omega

/-- Skip step of the scan invariant: prepending an alarm that the pass left
untouched (disabled, snoozed, not due, or blocked by an occupied slot)
shifts every fired index by one and preserves the invariant. -/
theorem ScanInv.cons_skip (now : Instant) (a : Alarm) (rest : List Alarm)
    (act : Option Alarm) (ins : List UserInput) (r' : ScanResult)
    (ih : ScanInv now rest act ins r') :
    ScanInv now (a :: rest) act ins
      { r' with alarms := a :: r'.alarms, fired := r'.fired.map (· + 1) } := by
  obtain ⟨hlen, hch, hfired, hunch, hact⟩ := ih
  refine ⟨by simpa using hlen, ?_, ?_, ?_, ?_⟩
  · rw [List.chain'_map]
    exact hch.imp fun hab => by omega
  · intro i hi
    obtain ⟨j, hj, rfl⟩ := List.mem_map.mp hi
    obtain ⟨b, hb, h1, h2, h3⟩ := hfired j hj
    exact ⟨b, by simpa using hb, h1, h2, h3⟩
  · intro i hi
    cases i with
    | zero => simp
    | succ j =>
        have hj : j ∉ r'.fired := fun hjm => hi (List.mem_map.mpr ⟨j, hjm, rfl⟩)
        simpa using hunch j hj
  · intro x hx
    obtain ⟨h1, h2, h3, h4⟩ := hact x hx
    exact ⟨by simp [h1], by simp [h2], h3, h4⟩

/-- Fire step of the scan invariant: prepending an enabled, non-snoozed,
due alarm whose episode resolved (with the slot free on entry) records
index 0 as fired and preserves the invariant for the tail, which the scan
continued over with the slot cleared by the episode. -/
theorem ScanInv.cons_fire (now : Instant) (a a2 : Alarm) (rest : List Alarm)
    (ins ins2 : List UserInput) (act2 : Option Alarm) (ws : List Alarm) (r' : ScanResult)
    (hen : a.enabled = true) (hsn : a.snoozed = false)
    (hdue : strptimeHM a.time = some (now.hour, now.minute))
    (ih : ScanInv now rest act2 ins2 r') :
    ScanInv now (a :: rest) none ins
      { r' with alarms := a2 :: r'.alarms, fired := 0 :: r'.fired.map (· + 1),
                watches := ws ++ r'.watches } := by
  obtain ⟨hlen, hch, hfired, hunch, hact⟩ := ih
  refine ⟨by simpa using hlen, ?_, ?_, ?_, ?_⟩
  · rw [List.chain'_cons']
    constructor
    · intro b hb
      rw [List.head?_map] at hb
      cases ho : r'.fired.head? with
      | none => rw [ho] at hb; simp at hb
      | some j => rw [ho] at hb; simp at hb; omega
    · rw [List.chain'_map]
      exact hch.imp fun hab => by omega
  · intro i hi
    rcases List.mem_cons.mp hi with rfl | hi2
    · exact ⟨a, by simp, hen, hsn, hdue⟩
    · obtain ⟨j, hj, rfl⟩ := List.mem_map.mp hi2
      obtain ⟨b, hb, h1, h2, h3⟩ := hfired j hj
      exact ⟨b, by simpa using hb, h1, h2, h3⟩
  · intro i hi
    cases i with
    | zero => exact absurd (List.mem_cons_self 0 _) hi
    | succ j =>
        have hj : j ∉ r'.fired :=
          fun hjm => hi (List.mem_cons.mpr (Or.inr (List.mem_map.mpr ⟨j, hjm, rfl⟩)))
        simpa using hunch j hj
  · intro x hx
    exact Option.noConfusion hx

/-- Main scan-pass invariant: any completed pass of the `alarm_monitor`
loop body satisfies `ScanInv` — the store keeps its length, fired indices
are strictly increasing and were all enabled, non-snoozed and due, unfired
indices are unchanged, and an occupied firing slot on entry blocks the
whole pass. -/
theorem scan_inv (now : Instant) (alarms : List Alarm) :
    ∀ (act : Option Alarm) (ins : List UserInput) (r : ScanResult),
      alarm_monitor_pass now alarms act ins = some r → ScanInv now alarms act ins r := by
  induction alarms with
  | nil =>
      intro act ins r h
      simp only [alarm_monitor_pass, Option.some.injEq] at h
      subst h
      exact ⟨rfl, List.chain'_nil, by simp, fun i _ => rfl, fun x hx => ⟨rfl, rfl, hx, rfl⟩⟩
  | cons a rest ih =>
      intro act ins r h
      simp only [alarm_monitor_pass] at h
      split at h
      · obtain ⟨r', hr', rfl⟩ := Option.map_eq_some'.mp h
        exact ScanInv.cons_skip now a rest act ins r' (ih act ins r' hr')
      · rename_i hskip
        split at h
        · exact Option.noConfusion h
        · rename_i hm hp
          split at h
          · rename_i hfire
            obtain ⟨hH, hM, hactn⟩ := hfire
            subst hactn
            split at h
            · exact Option.noConfusion h
            · rename_i a2 outcome act2 ins2 hh
              obtain ⟨r', hr', rfl⟩ := Option.map_eq_some'.mp h
              have hen : a.enabled = true := by
                simp only [Bool.or_eq_true, Bool.not_eq_true'] at hskip
                exact by_contra fun hc => hskip (Or.inl (by simpa using hc))
              have hsn : a.snoozed = false := by
                simp only [Bool.or_eq_true, Bool.not_eq_true'] at hskip
                exact by_contra fun hc => hskip (Or.inr (by simpa using hc))
              have hdue : strptimeHM a.time = some (now.hour, now.minute) := by
                rw [hp, hH, hM]
              exact ScanInv.cons_fire now a a2 rest ins ins2 act2 _ r'
                hen hsn hdue (ih act2 ins2 r' hr')
          · obtain ⟨r', hr', rfl⟩ := Option.map_eq_some'.mp h
            exact ScanInv.cons_skip now a rest act ins r' (ih act ins r' hr')

/-- C3 counterexample: with two enabled, non-deferred triggers both due at
09:00 and the decision protocol answering dismiss each time, a single
main-scan cycle fires BOTH triggers (indices 0 and 1), not exactly one —
the second does not wait for a subsequent scan cycle, because each firing
episode resolves inside the pass and frees the slot before the loop
reaches the next store entry. -/
theorem scan_single_fire_counterexample :
    (alarm_monitor_pass ⟨9, 0, 0⟩ [dueA, dueB] none
        [UserInput.line ['1'], UserInput.line ['1']]).map ScanResult.fired = some [0, 1]
    ∧ ¬ (alarm_monitor_pass ⟨9, 0, 0⟩ [dueA, dueB] none
        [UserInput.line ['1'], UserInput.line ['1']]).map
          (fun r => r.fired.length) = some 1 := by
  decide

/-- C3 amended: in a single main-scan cycle the due, enabled, non-deferred
triggers fire serially in store order — the fired indices are strictly
increasing and each named a trigger that was enabled, non-snoozed and due —
with at most one firing episode in progress at a time (each resolves before
the scan reaches the next entry); and if the firing slot is already
occupied when the cycle starts, no trigger fires and every due trigger
remains pending in an unchanged store until a scan after the slot is
free. -/
theorem scan_fires_serially (now : Instant) (alarms : List Alarm) (act : Option Alarm)
    (ins : List UserInput) (r : ScanResult)
    (h : alarm_monitor_pass now alarms act ins = some r) :
    List.Chain' (· < ·) r.fired
    ∧ (∀ i ∈ r.fired, ∃ a, alarms[i]? = some a ∧ a.enabled = true ∧ a.snoozed = false ∧
        strptimeHM a.time = some (now.hour, now.minute))
    ∧ (∀ x, act = some x → r.fired = [] ∧ r.alarms = alarms) := by
  obtain ⟨-, hch, hf, -, hact⟩ := scan_inv now alarms act ins r h
  exact ⟨hch, hf, fun x hx => ⟨(hact x hx).1, (hact x hx).2.1⟩⟩

/-- C3 witness: the two-due-triggers store at 09:00, with both episodes
dismissed, satisfies the serialization properties with fired list
`[0, 1]`. -/
theorem scan_fires_serially_witness :
    List.Chain' (· < ·) (ScanResult.fired ⟨[dueA, dueB], none, [], [0, 1], []⟩)
    ∧ (∀ i ∈ ScanResult.fired ⟨[dueA, dueB], none, [], [0, 1], []⟩,
        ∃ a, [dueA, dueB][i]? = some a ∧ a.enabled = true ∧ a.snoozed = false ∧
          strptimeHM a.time = some ((9 : Nat), (0 : Nat)))
    ∧ (∀ x, (none : Option Alarm) = some x →
        ScanResult.fired ⟨[dueA, dueB], none, [], [0, 1], []⟩ = [] ∧
        ScanResult.alarms ⟨[dueA, dueB], none, [], [0, 1], []⟩ = [dueA, dueB]) :=
  scan_fires_serially ⟨9, 0, 0⟩ [dueA, dueB] none
    [UserInput.line ['1'], UserInput.line ['1']]
    ⟨[dueA, dueB], none, [], [0, 1], []⟩ (by decide)

/-- C6: the main due-scan never fires a trigger whose enabled flag is false
or whose deferred flag is true — such a trigger is skipped (its index never
enters the fired list) and left unchanged in the store, regardless of
whether its stored time matches the wall clock. -/
theorem scan_never_fires_disabled (now : Instant) (alarms : List Alarm) (act : Option Alarm)
    (ins : List UserInput) (r : ScanResult)
    (h : alarm_monitor_pass now alarms act ins = some r)
    (i : Nat) (a : Alarm) (ha : alarms[i]? = some a)
    (hskip : a.enabled = false ∨ a.snoozed = true) :
    i ∉ r.fired ∧ r.alarms[i]? = some a := by
  obtain ⟨-, -, hf, hunch, -⟩ := scan_inv now alarms act ins r h
  have hni : i ∉ r.fired := by
    intro hi
    obtain ⟨b, hb, h1, h2, -⟩ := hf i hi
    have hab : a = b := by
      have := ha.symm.trans hb
      injection this
    subst hab
    rcases hskip with hc | hc
    · rw [h1] at hc
      cases hc
    · rw [hc] at h2
      cases h2
  exact ⟨hni, (hunch i hni).trans ha⟩

/-- C6 witness: in a store holding a disabled due alarm, a snoozed due
alarm and an enabled due alarm, the 09:00 scan leaves the first two unfired
and unchanged (only the third fires). -/
theorem scan_never_fires_disabled_witness :
    (0 ∉ ScanResult.fired ⟨[dueDisabled, dueSnoozed, dueA], none, [], [2], []⟩
      ∧ (ScanResult.alarms ⟨[dueDisabled, dueSnoozed, dueA], none, [], [2], []⟩)[0]? =
          some dueDisabled)
    ∧ (1 ∉ ScanResult.fired ⟨[dueDisabled, dueSnoozed, dueA], none, [], [2], []⟩
      ∧ (ScanResult.alarms ⟨[dueDisabled, dueSnoozed, dueA], none, [], [2], []⟩)[1]? =
          some dueSnoozed)
    ∧ (alarm_monitor_pass ⟨9, 0, 0⟩ [dueDisabled, dueSnoozed, dueA] none
        [UserInput.line ['1']]).map ScanResult.fired = some [2] :=
  ⟨scan_never_fires_disabled ⟨9, 0, 0⟩ [dueDisabled, dueSnoozed, dueA] none
      [UserInput.line ['1']] ⟨[dueDisabled, dueSnoozed, dueA], none, [], [2], []⟩
      (by decide) 0 dueDisabled (by decide) (Or.inl rfl),
   scan_never_fires_disabled ⟨9, 0, 0⟩ [dueDisabled, dueSnoozed, dueA] none
      [UserInput.line ['1']] ⟨[dueDisabled, dueSnoozed, dueA], none, [], [2], []⟩
      (by decide) 1 dueSnoozed (by decide) (Or.inr rfl),
   by decide⟩

/-- A digit character is not stripped as whitespace. -/
theorem digit_not_ws (c : Char) (h : c.isDigit = true) : isPyWS c = false := by
  cases hw : isPyWS c
  · rfl
  · exfalso
    simp only [isPyWS, Bool.or_eq_true, decide_eq_true_eq] at hw
    rcases hw with ((((h1 | h1) | h1) | h1) | h1) | h1 <;> subst h1 <;>
      exact absurd h (by decide)

/-- Stripping whitespace from an all-digit character list is a no-op
(front direction). -/
theorem dropWhile_ws_digits (l : List Char) (h : l.all Char.isDigit = true) :
    l.dropWhile isPyWS = l := by
  cases l with
  | nil => rfl
  | cons c cs =>
      have hc : c.isDigit = true := by
        simp only [List.all_cons, Bool.and_eq_true] at h
        exact h.1
      rw [List.dropWhile_cons, digit_not_ws c hc]
      simp

/-- Python `strip()` leaves an all-digit character list unchanged. -/
theorem pyStrip_digits (l : List Char) (h : l.all Char.isDigit = true) :
    pyStrip l = l := by
  unfold pyStrip
  rw [dropWhile_ws_digits l h, dropWhile_ws_digits l.reverse (by simpa using h)]
  exact List.reverse_reverse l

/-- A nonempty all-digit character list is a well-formed Python digit
run. -/
theorem digitsUnd_all (l : List Char) (hne : l ≠ []) (h : l.all Char.isDigit = true) :
    digitsUnd l = true := by
  induction l with
  | nil => exact absurd rfl hne
  | cons c cs ih =>
      simp only [List.all_cons, Bool.and_eq_true] at h
      cases cs with
      | nil => exact h.1
      | cons d rest =>
          have hd : d.isDigit = true := by
            simp only [List.all_cons, Bool.and_eq_true] at h
            exact h.2.1
          have hdne : ¬ (d = '_') := fun he => by subst he; exact absurd hd (by decide)
          show (if d = '_' then c.isDigit && digitsUnd rest
            else c.isDigit && digitsUnd (d :: rest)) = true
          rw [if_neg hdne, h.1, ih (by simp) h.2]
          rfl

/-- Python `int()` on a nonempty all-digit string succeeds and returns its
decimal value. -/
theorem pyIntParse_all (l : List Char) (hne : l ≠ []) (h : l.all Char.isDigit = true) :
    pyIntParse l = some (Int.ofNat (pyDigitsVal l)) := by
  unfold pyIntParse
  rw [pyStrip_digits l h]
  cases l with
  | nil => exact absurd rfl hne
  | cons c cs =>
      have hc : c.isDigit = true := by
        simp only [List.all_cons, Bool.and_eq_true] at h
        exact h.1
      have hcp : ¬ (c = '+') := fun he => by subst he; exact absurd hc (by decide)
      have hcm : ¬ (c = '-') := fun he => by subst he; exact absurd hc (by decide)
      show (if c = '+' then _ else if c = '-' then _
        else if digitsUnd (c :: cs) then some (Int.ofNat (pyDigitsVal (c :: cs))) else none) = _
      rw [if_neg hcp, if_neg hcm, digitsUnd_all (c :: cs) hne h]
      simp

/-- Validation accepts every string whose two colon-separated segments are
nonempty digit runs with in-range values. -/
theorem numericHM_accepts (s : String) (h : numericHM s = true) :
    validate_time_format s = true := by
  unfold numericHM at h
  split at h
  · rename_i hs ms heq
    simp only [Bool.and_eq_true, Bool.not_eq_true', decide_eq_true_eq] at h
    obtain ⟨⟨⟨⟨⟨he1, he2⟩, hd1⟩, hd2⟩, hv1⟩, hv2⟩ := h
    have hne1 : hs ≠ [] := by cases hs <;> simp_all
    have hne2 : ms ≠ [] := by cases ms <;> simp_all
    unfold validate_time_format
    rw [heq]
    dsimp only
    rw [pyIntParse_all hs hne1 hd1, pyIntParse_all ms hne2 hd2]
    simp only [Bool.and_eq_true, decide_eq_true_eq]
    exact ⟨⟨Int.ofNat_nonneg _, by rw [Int.ofNat_eq_natCast]; exact_mod_cast hv1⟩,
      Int.ofNat_nonneg _, by rw [Int.ofNat_eq_natCast]; exact_mod_cast hv2⟩
  · exact Bool.noConfusion h

/-- Any accepted string has exactly two colon-separated segments, each a
Python integer whose value is in range. -/
theorem validate_sound (s : String) (h : validate_time_format s = true) :
    ∃ hs ms hv mv, pySplit ':' s.data = [hs, ms] ∧ pyIntParse hs = some hv ∧
      pyIntParse ms = some mv ∧ 0 ≤ hv ∧ hv ≤ 23 ∧ 0 ≤ mv ∧ mv ≤ 59 := by
  unfold validate_time_format at h
  split at h
  · rename_i hs ms heq
    split at h
    · rename_i hv mv hp1 hp2
      simp only [Bool.and_eq_true, decide_eq_true_eq] at h
      exact ⟨hs, ms, hv, mv, heq, hp1, hp2, h.1.1, h.1.2, h.2.1, h.2.2⟩
    · exact Bool.noConfusion h
  · exact Bool.noConfusion h

/-- C7 counterexample: `validate_time_format` accepts `"+1:05"` — Python's
`int()` tolerates an explicit sign — although `"+1"` is not a numeric
(digits-only) segment, so acceptance is NOT limited to the claimed HH:MM
shapes. -/
theorem validate_numeric_counterexample :
    validate_time_format "+1:05" = true ∧ numericHM "+1:05" = false := by
  decide

/-- C7 amended: `validate_time_format` accepts every string of exactly two
colon-separated nonempty digits-only segments with hours in [0,23] and
minutes in [0,59]; conversely everything it accepts has exactly two
colon-separated segments that parse as Python integers (optional sign,
surrounding whitespace and underscore grouping tolerated) with values in
those ranges; and the shapes the claim lists — empty, three segments,
"24:00", "12:60", "ab:cd" — are all rejected. -/
theorem validate_time_format_amended :
    (∀ s, numericHM s = true → validate_time_format s = true)
  ∧ (∀ s, validate_time_format s = true →
      ∃ hs ms hv mv, pySplit ':' s.data = [hs, ms] ∧ pyIntParse hs = some hv ∧
        pyIntParse ms = some mv ∧ 0 ≤ hv ∧ hv ≤ 23 ∧ 0 ≤ mv ∧ mv ≤ 59)
  ∧ validate_time_format "" = false
  ∧ validate_time_format "1:2:3" = false
  ∧ validate_time_format "24:00" = false
  ∧ validate_time_format "12:60" = false
  ∧ validate_time_format "ab:cd" = false :=
  ⟨numericHM_accepts, validate_sound, by decide, by decide, by decide, by decide, by decide⟩

/-- C7 witness: the canonical in-range time "09:05" is accepted, and the
accepted "14:30" decomposes into two in-range integer segments. -/
theorem validate_time_format_amended_witness :
    validate_time_format "09:05" = true
    ∧ (∃ hs ms hv mv, pySplit ':' "14:30".data = [hs, ms] ∧ pyIntParse hs = some hv ∧
        pyIntParse ms = some mv ∧ 0 ≤ hv ∧ hv ≤ 23 ∧ 0 ≤ mv ∧ mv ≤ 59) :=
  ⟨validate_time_format_amended.1 "09:05" (by decide),
   validate_time_format_amended.2.1 "14:30" (by decide)⟩

/-- Flipping one store entry preserves the store length. -/
theorem toggleAt_length (l : List Alarm) (n : Nat) :
    (toggleAt l n).length = l.length := by
  induction l generalizing n with
  | nil => rfl
  | cons a rest ih =>
      cases n with
      | zero => rfl
      | succ m => simp [toggleAt, ih]

/-- Pointwise description of flipping one store entry. -/
theorem toggleAt_getElem (l : List Alarm) (n j : Nat) :
    (toggleAt l n)[j]? =
      if j = n then (l[j]?).map (fun a => { a with enabled := !a.enabled })
      else l[j]? := by
  induction l generalizing n j with
  | nil => simp [toggleAt]
  | cons a rest ih =>
      cases n with
      | zero =>
          cases j with
          | zero => simp [toggleAt]
          | succ i => simp [toggleAt]
      | succ m =>
          cases j with
          | zero => simp [toggleAt]
          | succ i => simp [toggleAt, ih]

/-- C8: `toggle_alarm` fails with the out-of-range error exactly when the
index is outside `[0, N-1]`; on an in-range index it succeeds, and the
resulting store has the same length, the indexed trigger with only its
`enabled` flag flipped, and every other trigger untouched. -/
theorem toggle_alarm_spec (alarms : List Alarm) (i : Int) :
    ((∃ e, toggle_alarm alarms i = Except.error e) ↔ ¬ (0 ≤ i ∧ i < alarms.length))
    ∧ (∀ l2, toggle_alarm alarms i = Except.ok l2 →
        l2.length = alarms.length
        ∧ (∀ a, alarms[i.toNat]? = some a →
            l2[i.toNat]? = some { a with enabled := !a.enabled })
        ∧ (∀ j : Nat, j ≠ i.toNat → l2[j]? = alarms[j]?)) := by
  unfold toggle_alarm
  by_cases hb : 0 ≤ i ∧ i < alarms.length
  · rw [if_pos hb]
    refine ⟨⟨fun he => Except.noConfusion he.choose_spec, fun hc => absurd hb hc⟩, ?_⟩
    intro l2 hl2
    have hl2e : toggleAt alarms i.toNat = l2 := by injection hl2
    subst hl2e
    refine ⟨toggleAt_length alarms i.toNat, ?_, ?_⟩
    · intro a ha
      rw [toggleAt_getElem, if_pos rfl, ha]
      rfl
    · intro j hj
      rw [toggleAt_getElem, if_neg hj]
  · rw [if_neg hb]
    exact ⟨⟨fun _ => hb, fun _ => ⟨"Invalid alarm number.", rfl⟩⟩,
      fun l2 hl2 => Except.noConfusion hl2⟩

/-- C8 witness: on the two-alarm store, toggling indices -1 and 2 fails,
and toggling index 0 flips exactly the first trigger's `enabled` flag. -/
theorem toggle_alarm_spec_witness :
    (∃ e, toggle_alarm [wakeAlarm, dueA] (-1) = Except.error e)
    ∧ (∃ e, toggle_alarm [wakeAlarm, dueA] 2 = Except.error e)
    ∧ toggle_alarm [wakeAlarm, dueA] 0 =
        Except.ok [{ wakeAlarm with enabled := false }, dueA]
    ∧ ([{ wakeAlarm with enabled := false }, dueA] : List Alarm)[(0 : Int).toNat]? =
        some { wakeAlarm with enabled := !wakeAlarm.enabled }
    ∧ (∀ j : Nat, j ≠ (0 : Int).toNat →
        ([{ wakeAlarm with enabled := false }, dueA] : List Alarm)[j]? =
          ([wakeAlarm, dueA] : List Alarm)[j]?) :=
  ⟨(toggle_alarm_spec [wakeAlarm, dueA] (-1)).1.mpr (by decide),
   (toggle_alarm_spec [wakeAlarm, dueA] 2).1.mpr (by decide),
   rfl,
   ((toggle_alarm_spec [wakeAlarm, dueA] 0).2
      [{ wakeAlarm with enabled := false }, dueA] rfl).2.1 wakeAlarm (by decide),
   ((toggle_alarm_spec [wakeAlarm, dueA] 0).2
      [{ wakeAlarm with enabled := false }, dueA] rfl).2.2⟩

/-- Every element surviving a `pop` was in the original list. -/
theorem popAt_mem (l : List Alarm) (n : Nat) (a : Alarm) (l2 : List Alarm)
    (h : popAt l n = some (a, l2)) : a ∈ l ∧ ∀ b ∈ l2, b ∈ l := by
  induction l generalizing n a l2 with
  | nil => exact Option.noConfusion h
  | cons c rest ih =>
      cases n with
      | zero =>
          simp only [popAt, Option.some.injEq, Prod.mk.injEq] at h
          obtain ⟨rfl, rfl⟩ := h
          exact ⟨List.mem_cons_self _ _, fun b hb => List.mem_cons_of_mem _ hb⟩
      | succ m =>
          simp only [popAt] at h
          obtain ⟨⟨a1, l1⟩, hp, heq⟩ := Option.map_eq_some'.mp h
          simp only [Prod.mk.injEq] at heq
          obtain ⟨rfl, rfl⟩ := heq
          obtain ⟨h1, h2⟩ := ih m a1 l1 hp
          refine ⟨List.mem_cons_of_mem _ h1, ?_⟩
          intro b hb
          rcases List.mem_cons.mp hb with rfl | hb2
          · exact List.mem_cons_self _ _
          · exact List.mem_cons_of_mem _ (h2 b hb2)

/-- Flipping one entry's `enabled` flag never touches a snooze count. -/
theorem toggleAt_map_count (l : List Alarm) (n : Nat) :
    (toggleAt l n).map Alarm.snooze_count = l.map Alarm.snooze_count := by
  induction l generalizing n with
  | nil => rfl
  | cons a rest ih =>
      cases n with
      | zero => simp [toggleAt]
      | succ m => simp [toggleAt, ih]

/-- Outcome-wise effect of the decision protocol on the snooze count. -/
theorem handle_count (alarm : Alarm) (now : Instant) (ins : List UserInput)
    (a2 : Alarm) (out : Outcome) (act2 : Option Alarm) (ins2 : List UserInput)
    (h : handle_alarm_response alarm now ins = some (a2, out, act2, ins2)) :
    (out = Outcome.dismissed → a2.snooze_count = 0 ∧ a2.snoozed = false)
    ∧ (∀ w, out = Outcome.snoozed w → a2.snooze_count = alarm.snooze_count + 1 ∧
        w.snooze_count = alarm.snooze_count + 1)
    ∧ (out = Outcome.interrupted → a2 = alarm) := by
  induction ins generalizing ins2 with
  | nil => exact Option.noConfusion h
  | cons i tl ih =>
      cases i with
      | interrupt =>
          simp only [handle_alarm_response, Option.some.injEq, Prod.mk.injEq] at h
          obtain ⟨rfl, rfl, -, -⟩ := h
          exact ⟨fun he => Outcome.noConfusion he, fun w he => Outcome.noConfusion he,
            fun _ => rfl⟩
      | line raw =>
          simp only [handle_alarm_response] at h
          split at h
          · simp only [Option.some.injEq, Prod.mk.injEq] at h
            obtain ⟨rfl, rfl, -, -⟩ := h
            exact ⟨fun _ => ⟨rfl, rfl⟩, fun w he => Outcome.noConfusion he,
              fun he => Outcome.noConfusion he⟩
          · split at h
            · simp only [Option.some.injEq, Prod.mk.injEq] at h
              obtain ⟨rfl, rfl, -, -⟩ := h
              refine ⟨fun he => Outcome.noConfusion he, ?_, fun he => Outcome.noConfusion he⟩
              intro w he
              have hw : (snooze_alarm alarm now).2 = w := by injection he
              subst hw
              exact ⟨rfl, rfl⟩
            · exact ih ins2 h

/-- C9: the snooze count of every trigger is changed only by the deferral
operation (which increments it) and the dismiss operation (which zeroes
it): adding a trigger leaves all existing entries untouched, toggling
preserves every snooze count, deleting only removes (every surviving
trigger is one of the originals), a scan cycle in which nothing fired
returns the store unchanged, and a firing episode changes the count
exactly as its outcome dictates — reset on dismiss, incremented by one on
defer, untouched on interrupt.  (The listing and playback operations are
embedded as pure renderings `view_alarms`/`play_alarm` of the store and
cannot mutate it.) -/
theorem snooze_count_frame :
    (∀ alarms time tone dur label,
        (set_alarm alarms time tone dur label).take alarms.length = alarms)
  ∧ (∀ alarms (i : Int) l2, toggle_alarm alarms i = Except.ok l2 →
        l2.map Alarm.snooze_count = alarms.map Alarm.snooze_count)
  ∧ (∀ alarms (i : Int) a l2, delete_alarm alarms i = Except.ok (a, l2) →
        ∀ b ∈ l2, b ∈ alarms)
  ∧ (∀ now alarms act ins r, alarm_monitor_pass now alarms act ins = some r →
        r.fired = [] → r.alarms = alarms)
  ∧ (∀ alarm now ins a2 out act2 ins2,
        handle_alarm_response alarm now ins = some (a2, out, act2, ins2) →
        (out = Outcome.dismissed → a2.snooze_count = 0)
        ∧ (∀ w, out = Outcome.snoozed w → a2.snooze_count = alarm.snooze_count + 1)
        ∧ (out = Outcome.interrupted → a2.snooze_count = alarm.snooze_count)) := by
  refine ⟨?_, ?_, ?_, ?_, ?_⟩
  · intro alarms time tone dur label
    exact List.take_left alarms _
  · intro alarms i l2 h
    unfold toggle_alarm at h
    split at h
    · have hl2e : toggleAt alarms i.toNat = l2 := by injection h
      subst hl2e
      exact toggleAt_map_count alarms i.toNat
    · exact Except.noConfusion h
  · intro alarms i a l2 h
    unfold delete_alarm at h
    split at h
    · split at h
      · rename_i p hp
        have hpe : p = (a, l2) := by injection h
        subst hpe
        exact (popAt_mem alarms i.toNat a l2 hp).2
      · exact Except.noConfusion h
    · exact Except.noConfusion h
  · intro now alarms act ins r h hf
    obtain ⟨-, -, -, hunch, -⟩ := scan_inv now alarms act ins r h
    exact List.ext_getElem? fun i => hunch i (by simp [hf])
  · intro alarm now ins a2 out act2 ins2 h
    obtain ⟨h1, h2, h3⟩ := handle_count alarm now ins a2 out act2 ins2 h
    exact ⟨fun he => (h1 he).1, fun w he => (h2 w he).1, fun he => by rw [h3 he]⟩

/-- C9 witness: concrete frame checks — appending an alarm keeps the first
two entries, toggling index 0 keeps both snooze counts, deleting index 0
leaves only original triggers, a 09:00 scan over the non-due 10:00 store
fires nothing and changes nothing, and a dismissed episode for the
thrice-snoozed alarm zeroes its count. -/
theorem snooze_count_frame_witness :
    (set_alarm [wakeAlarm, count3Alarm] "08:00" "t" 10 "x").take 2 = [wakeAlarm, count3Alarm]
    ∧ (∀ l2, toggle_alarm [wakeAlarm, count3Alarm] 0 = Except.ok l2 →
        l2.map Alarm.snooze_count = [wakeAlarm, count3Alarm].map Alarm.snooze_count) ∧
      ([{ wakeAlarm with enabled := false }, count3Alarm].map Alarm.snooze_count =
        [wakeAlarm, count3Alarm].map Alarm.snooze_count)
    ∧ (∀ b ∈ [count3Alarm], b ∈ [wakeAlarm, count3Alarm])
    ∧ (ScanResult.fired ⟨[wakeAlarm], none, [], [], []⟩ = [] →
        ScanResult.alarms ⟨[wakeAlarm], none, [], [], []⟩ = [wakeAlarm])
    ∧ ((Outcome.dismissed = Outcome.dismissed →
          ({ count3Alarm with snoozed := false, snooze_count := 0 } : Alarm).snooze_count = 0)
        ∧ (∀ w, Outcome.dismissed = Outcome.snoozed w →
            ({ count3Alarm with snoozed := false, snooze_count := 0 } : Alarm).snooze_count =
              count3Alarm.snooze_count + 1)
        ∧ (Outcome.dismissed = Outcome.interrupted →
            ({ count3Alarm with snoozed := false, snooze_count := 0 } : Alarm).snooze_count =
              count3Alarm.snooze_count)) :=
  ⟨snooze_count_frame.1 [wakeAlarm, count3Alarm] "08:00" "t" 10 "x",
   snooze_count_frame.2.1 [wakeAlarm, count3Alarm] 0,
   by decide,
   snooze_count_frame.2.2.1 [wakeAlarm, count3Alarm] 0 wakeAlarm [count3Alarm] rfl,
   snooze_count_frame.2.2.2.1 ⟨9, 0, 0⟩ [wakeAlarm] none []
     ⟨[wakeAlarm], none, [], [], []⟩ (by decide),
   snooze_count_frame.2.2.2.2 count3Alarm ⟨10, 0, 0⟩ [UserInput.line ['1']]
     { count3Alarm with snoozed := false, snooze_count := 0 } Outcome.dismissed none []
     (by decide)⟩

/-- C10 witness: snoozing at 23:58 with a 5-minute defer duration wraps the
fire time across midnight to 00:03. -/
theorem snooze_time_wraps_witness :
    (∃ h m : Nat, (snooze_alarm wakeAlarm ⟨23, 58, 30⟩).2.time = strftimeHM h m
      ∧ h < 24 ∧ m < 60
      ∧ h * 60 + m = (23 * 60 + 58 + wakeAlarm.snooze_duration) % 1440)
    ∧ (snooze_alarm wakeAlarm ⟨23, 58, 30⟩).2.time = "00:03" :=
  ⟨snooze_time_wraps wakeAlarm ⟨23, 58, 30⟩ (by decide), by decide⟩

end AlarmClock
